import Mathlib

/-!
Shallow embedding of the `acb` repository: a script that computes, from a
date-ordered list of securities transactions, the running adjusted cost base
(ACB) per symbol and the realized capital gains per tax year (src/acb.py),
together with its currency-conversion helper (src/acb/currency.py).

Modelling conventions:
* Python floats become exact rationals (`ℚ`); the numeric formulas are
  transcribed literally (including the `max(0, ...)` floors).
* `datetime` values become day numbers (`Int`); `date - timedelta(days=30)`
  becomes `date - 30`, comparisons become `Int` comparisons, and `date.year`
  is an abstract function `yearOf : Int → Int` threaded as a parameter.
* Python exceptions (`raise`, `KeyError`, `IndexError`, `ZeroDivisionError`)
  become `Option.none`; a function that can fail returns an `Option`.
* The network-backed rate provider is a parameter: `RateTable` stands for the
  composition of `GetConversionRateTable` and the `rates[when]` lookup used by
  `Convert`, and the CSV fetch inside `GetUsdToCadDailyRateTable` is a
  parameter `fetch` returning the parsed `(noon, close, high, low)` row.
* Python dicts become functions into `Option`, so that key presence
  (`acbs.get(sym, default)` versus `acbs[sym]`) is modelled exactly.
-/

namespace AcbSpec

/-- A unit of currency (src/acb/common.py, namedtuple `CurrencyAmount`). -/
structure CurrencyAmount where
  currency : String
  amount : ℚ
deriving DecidableEq

/-- The transaction kinds of src/acb/common.py (`TRANS_ACQUIRE`, `TRANS_BUY`,
`TRANS_SELL`, `TRANS_CAPITAL_RETURN`, `TRANS_DIVIDEND`, `TRANS_FEE`). -/
inductive TransType
  | ACQUIRE
  | BUY
  | SELL
  | CAPITAL_RETURN
  | DIVIDEND
  | FEE
deriving DecidableEq

/-- A transaction (src/acb/common.py, namedtuple `Transaction`).  Dates are
day numbers. -/
structure Transaction where
  date : Int
  settlement_date : Int
  symbol : String
  type : TransType
  units : ℚ
  value : CurrencyAmount
  fees : CurrencyAmount
deriving DecidableEq

/-- Per-symbol adjusted cost base (src/acb.py line 30, namedtuple
`AdjustedCostBase`, fields `units cost`), implicitly in CAD. -/
structure AdjustedCostBase where
  units : ℚ
  cost : ℚ
deriving DecidableEq

/-- One acquisition lot of the per-symbol share ledger.  In src/acb.py a lot
is the 3-element list `[date, units, value]` manipulated by `PushShares` and
`PopShares`; the `value` field holds the lot's cost. -/
structure Lot where
  date : Int
  units : ℚ
  value : ℚ
deriving DecidableEq

/-- Sum of the unit counts of all lots of a ledger (the spec-level measure
used by the lot-conservation and underflow claims). -/
def sumUnits (shares : List Lot) : ℚ :=
  (shares.map Lot.units).sum

/-- Body of `PushShares` (src/acb.py lines 66-72) expressed on the reversed
ledger, whose head is the Python list's last element `shares[-1]`:
if the ledger is empty or its last lot has a different date, append a new lot
`[date, units, value]`; otherwise mutate the last lot by
`shares[-1][1] += units; shares[-1][2] += units * value`. -/
def pushRev (shares : List Lot) (units value : ℚ) (date : Int) : List Lot :=
  match shares with
  | [] => [⟨date, units, value⟩]
  | lot :: rest =>
    if lot.date ≠ date then
      ⟨date, units, value⟩ :: lot :: rest
    else
      ⟨lot.date, lot.units + units, lot.value + units * value⟩ :: rest

/-- `PushShares(shares, units, value, date)` (src/acb.py lines 66-72).  The
ledger is kept in Python list order (oldest lot first); the push works on the
last element, hence the double reversal. -/
def PushShares (shares : List Lot) (units value : ℚ) (date : Int) : List Lot :=
  (pushRev shares.reverse units value date).reverse

/-- Body of `PopShares` (src/acb.py lines 75-108) expressed on the reversed
ledger (head = `shares[-1]`).  The `while shares[-1][1] < units` loop becomes
the recursive branch: the last batch is entirely consumed, its units/value are
added to the washed accumulators when `lot.date ≥ count_since`, and the batch
is deleted.  The terminal branch splits the covering batch proportionally;
`new_value = shares[-1][2] * new_units / shares[-1][1]` raises
`ZeroDivisionError` in Python when the batch has zero units, hence the `none`.
Indexing `shares[-1]` on an empty list raises `IndexError`, hence the `none`
base case.  The returned `buy_date` is the date of the final batch touched. -/
def popRev (count_since : Int) : ℚ → List Lot → Option (Int × ℚ × ℚ × List Lot)
  | _, [] => none
  | units, lot :: rest =>
    if lot.units < units then
      (popRev count_since (units - lot.units) rest).map
        (fun r =>
          if count_since ≤ lot.date then
            (r.1, r.2.1 + lot.units, r.2.2.1 + lot.value, r.2.2.2)
          else r)
    else
      if lot.units = 0 then none
      else
        some (lot.date,
              (if count_since ≤ lot.date then units else 0),
              (if count_since ≤ lot.date then
                 lot.value - lot.value * (lot.units - units) / lot.units
               else 0),
              (if lot.units - units = 0 then rest
               else
                 ⟨lot.date, lot.units - units,
                  lot.value * (lot.units - units) / lot.units⟩ :: rest))

/-- `PopShares(shares, units, count_since)` (src/acb.py lines 75-108), in
Python list order.  Returns `(buy_date, net_units, net_value)` together with
the ledger left after the pop; `none` models the Python exceptions. -/
def PopShares (shares : List Lot) (units : ℚ) (count_since : Int) :
    Option (Int × ℚ × ℚ × List Lot) :=
  (popRev count_since units shares.reverse).map
    (fun r => (r.1, r.2.1, r.2.2.1, r.2.2.2.reverse))

/-- The rate kind used throughout processing (src/acb.py line 119). -/
def DEFAULT_RATE : String := "daily noon"

/-- Abstract historical-rate provider: the composition of
`GetConversionRateTable(from, to, date)` and the `rates[when]` lookup of
src/acb/currency.py; `none` models both the unsupported-pair exception and a
missing rate kind. -/
abbrev RateTable := String → String → Int → String → Option ℚ

/-- `Convert(currency_amount, currency_to, date, when)`
(src/acb/currency.py lines 201-220): identity when the currencies already
match, zero short-circuit for zero amounts, otherwise multiply by the fetched
rate. -/
def Convert (table : RateTable) (a : CurrencyAmount) (currency_to : String)
    (date : Int) (when : String) : Option CurrencyAmount :=
  if a.currency = currency_to then
    some a
  else if a.amount = 0 then
    some ⟨currency_to, 0⟩
  else
    match table a.currency currency_to date when with
    | none => none
    | some rate => some ⟨currency_to, a.amount * rate⟩

/-- `GetUsdToCadDailyRateTable(date)` (src/acb/currency.py lines 50-84),
parameterized by the parsed CSV row `fetch date = (noon, close, high, low)`
(`none` models the `Rates not found` exception).  A negative noon rate marks a
bank holiday: the function recurses on the previous calendar day and returns
`[previous_day, rates[2], rates[2], rates[2], rates[2]]`, i.e. the recursive
result's closing rate for every kind, dated with `previous_day` itself.  The
recursion is bounded by the calendar (day 0), where Python's date arithmetic
would fail. -/
def GetUsdToCadDailyRateTable (fetch : Nat → Option (ℚ × ℚ × ℚ × ℚ)) :
    Nat → Option (Nat × ℚ × ℚ × ℚ × ℚ)
  | 0 =>
    match fetch 0 with
    | none => none
    | some (noon, close, high, low) =>
      if noon < 0 then none else some (0, noon, close, high, low)
  | (d + 1) =>
    match fetch (d + 1) with
    | none => none
    | some (noon, close, high, low) =>
      if noon < 0 then
        (GetUsdToCadDailyRateTable fetch d).map
          (fun r => (d, r.2.2.1, r.2.2.1, r.2.2.1, r.2.2.1))
      else
        some (d + 1, noon, close, high, low)

/-- A capital gains/loss event (src/acb.py lines 193-200), keyed in
`ProcessTransactions` by settlement date and symbol. -/
structure Event where
  units : ℚ
  acquisition : Int
  proceeds : ℚ
  acb : ℚ
  expenses : ℚ
  lots : Nat
deriving DecidableEq

/-- Folding one sale into the event table entry for its day and symbol
(src/acb.py lines 190-209): a fresh entry starts at zeros with
`acquisition = buy_date`, then the sale's figures are added. -/
def foldEvent (old : Option Event) (buy_date : Int)
    (units price cost_per_unit fee : ℚ) : Event :=
  let e := old.getD ⟨0, buy_date, 0, 0, 0, 0⟩
  ⟨e.units + units, max e.acquisition buy_date, e.proceeds + price * units,
   e.acb + cost_per_unit * units, e.expenses + fee, e.lots + 1⟩

/-- Pointwise update of a map modelled as a function. -/
def upd {α β : Type} [DecidableEq α] (f : α → β) (k : α) (v : β) : α → β :=
  fun x => if x = k then v else f x

/-- The mutable state of `ProcessTransactions` (src/acb.py lines 124-130):
the `acbs`, `cgs`, `shares` and `events` dicts, modelled as functions into
`Option` so key presence is tracked. -/
structure PState where
  acbs : String → Option AdjustedCostBase
  cgs : Int → Option ℚ
  shares : String → Option (List Lot)
  events : Int → String → Option Event

/-- The empty starting state of `ProcessTransactions`. -/
def initState : PState :=
  ⟨fun _ => none, fun _ => none, fun _ => none, fun _ _ => none⟩

/-- One iteration of the `for tx in txs` loop of `ProcessTransactions`
(src/acb.py lines 132-225), for an ordinary `Transaction` (the functor
branch carries no `Transaction` and is outside the claims):
convert the fees to CAD, read the symbol's ACB with a zero default, create
the year's `cgs` entry and the symbol's `shares` entry if missing, then
dispatch on the transaction type.  `DIVIDEND` executes `continue`, skipping
the final `acbs[tx.symbol] = a` write; an unhandled type (in particular
`FEE`, for which no branch exists) raises, modelled by `none`. -/
def ProcessTx (table : RateTable) (yearOf : Int → Int) (display : Bool)
    (s : PState) (tx : Transaction) : Option PState :=
  let date := tx.settlement_date
  match Convert table tx.fees "CAD" date DEFAULT_RATE with
  | none => none
  | some fees =>
    let a := (s.acbs tx.symbol).getD ⟨0, 0⟩
    let y := yearOf date
    let cgs1 := upd s.cgs y (some ((s.cgs y).getD 0))
    let ledger := (s.shares tx.symbol).getD []
    let shares1 := upd s.shares tx.symbol (some ledger)
    match tx.type with
    | TransType.ACQUIRE | TransType.BUY =>
      match Convert table tx.value "CAD" date DEFAULT_RATE with
      | none => none
      | some v =>
        let a2 : AdjustedCostBase :=
          ⟨a.units + tx.units, a.cost + tx.units * v.amount + fees.amount⟩
        some ⟨upd s.acbs tx.symbol (some a2), cgs1,
              upd shares1 tx.symbol
                (some (PushShares ledger tx.units (tx.units * v.amount) date)),
              s.events⟩
    | TransType.SELL =>
      match PopShares ledger tx.units (date - 30) with
      | none => none
      | some (buy_date, _washedU, _washedV, ledger2) =>
        match Convert table tx.value "CAD" date DEFAULT_RATE with
        | none => none
        | some v =>
          if a.units = 0 then none
          else
            let cost_per_unit := a.cost / a.units
            let units2 := max 0 (a.units - tx.units)
            let cost2 := max 0 (a.cost * units2 / a.units)
            let cg := (v.amount - cost_per_unit) * tx.units - fees.amount
            let cgs2 := upd cgs1 y (some ((cgs1 y).getD 0 + cg))
            let ev :=
              if cg ≠ 0 ∧ display = true then
                fun d2 s2 =>
                  if d2 = date ∧ s2 = tx.symbol then
                    some (foldEvent (s.events date tx.symbol) buy_date
                            tx.units v.amount cost_per_unit fees.amount)
                  else s.events d2 s2
              else s.events
            some ⟨upd s.acbs tx.symbol (some ⟨units2, cost2⟩), cgs2,
                  upd shares1 tx.symbol (some ledger2), ev⟩
    | TransType.CAPITAL_RETURN =>
      match Convert table tx.value "CAD" date DEFAULT_RATE with
      | none => none
      | some v =>
        match s.acbs tx.symbol with
        | none => none
        | some a3 =>
          let a2 : AdjustedCostBase := ⟨a3.units, max 0 (a3.cost - v.amount)⟩
          some ⟨upd s.acbs tx.symbol (some a2), cgs1, shares1, s.events⟩
    | TransType.DIVIDEND =>
      some ⟨s.acbs, cgs1, shares1, s.events⟩
    | TransType.FEE => none

/-- `ProcessTransactions(txs, display)` (src/acb.py lines 122-287) restricted
to its observable state: the left-to-right loop over the transactions.  The
dead display block and the end-of-run report printing do not change the
returned `(acbs, cgs, shares)` and are omitted. -/
def ProcessTransactions (table : RateTable) (yearOf : Int → Int)
    (display : Bool) (txs : List Transaction) : Option PState :=
  txs.foldlM (ProcessTx table yearOf display) initState

/-- The ledger of a symbol as seen by the processing loop: the `shares` dict
entry with the empty-list default installed at src/acb.py lines 152-154. -/
def ledgerOf (s : PState) (sym : String) : List Lot :=
  (s.shares sym).getD []

/-- The adjusted cost base of a symbol with the lazy zero default of
src/acb.py line 145. -/
def acbOf (s : PState) (sym : String) : AdjustedCostBase :=
  (s.acbs sym).getD ⟨0, 0⟩

/-- The lot-conservation invariant of the spec, together with the
nonnegativity of every lot's unit count that sustains it. -/
def LotInvariant (s : PState) : Prop :=
  ∀ sym, (∀ lot ∈ ledgerOf s sym, 0 ≤ lot.units) ∧
    sumUnits (ledgerOf s sym) = (acbOf s sym).units

/-- A provider with no published rates: sufficient wherever every amount is
already in the reporting currency. -/
def trivTable : RateTable := fun _ _ _ _ => none

/-- A provider that resolves every lookup (to the rate 1). -/
def unitTable : RateTable := fun _ _ _ _ => some 1

/-- The spec scenario of section 8: buy 100 units at 10 CAD on day 1, buy 50
at 12 CAD on day 5, sell 120 at 15 CAD on day 10, all fee-free. -/
def scenarioTxs : List Transaction :=
  [⟨1, 1, "X", TransType.BUY, 100, ⟨"CAD", 10⟩, ⟨"CAD", 0⟩⟩,
   ⟨5, 5, "X", TransType.BUY, 50, ⟨"CAD", 12⟩, ⟨"CAD", 0⟩⟩,
   ⟨10, 10, "X", TransType.SELL, 120, ⟨"CAD", 15⟩, ⟨"CAD", 0⟩⟩]

/-- A concrete year function for witnesses. -/
def wYear : Int → Int := fun _ => 2014

/-- Concrete per-unit sale price for witnesses. -/
def wSellValue : CurrencyAmount := ⟨"CAD", 20⟩

/-- Concrete sale fees for witnesses. -/
def wSellFees : CurrencyAmount := ⟨"CAD", 0⟩

/-- A concrete mid-run state: symbol X holds 10 units of cost 100, with one
matching ledger lot. -/
def wState : PState :=
  ⟨upd (fun _ => none) "X" (some ⟨10, 100⟩), fun _ => none,
   upd (fun _ => none) "X" (some [⟨0, 10, 100⟩]), fun _ _ => none⟩

/-- A concrete sale of 4 units at 20 CAD against `wState`. -/
def wSell : Transaction := ⟨1, 1, "X", TransType.SELL, 4, wSellValue, wSellFees⟩

/-- A concrete two-transaction run for the conservation witness. -/
def wTxs : List Transaction :=
  [⟨1, 1, "X", TransType.BUY, 10, ⟨"CAD", 10⟩, ⟨"CAD", 0⟩⟩,
   ⟨2, 2, "X", TransType.SELL, 4, ⟨"CAD", 20⟩, ⟨"CAD", 0⟩⟩]

/-- A management-fee transaction as the CIBC importer emits them
(src/acb/cibc.py lines 94-105): kind FEE, zero units, CAD amount. -/
def feeTx : Transaction := ⟨0, 0, "VXC", TransType.FEE, 0, ⟨"CAD", 3⟩, ⟨"CAD", 0⟩⟩

/-- A dividend transaction in the same shape. -/
def divTx : Transaction := ⟨0, 0, "VXC", TransType.DIVIDEND, 0, ⟨"CAD", 3⟩, ⟨"CAD", 0⟩⟩

/-- A buy then a full round-trip sale with a 100 CAD gain. -/
def cbuy : Transaction := ⟨1, 1, "X", TransType.BUY, 10, ⟨"CAD", 10⟩, ⟨"CAD", 0⟩⟩

/-- The matching sale of all 10 units at 20 CAD. -/
def csell : Transaction := ⟨2, 2, "X", TransType.SELL, 10, ⟨"CAD", 20⟩, ⟨"CAD", 0⟩⟩

/-- A SELL as the very first transaction on its symbol. -/
def sellUnseen : Transaction :=
  ⟨0, 0, "X", TransType.SELL, 5, ⟨"CAD", 10⟩, ⟨"CAD", 0⟩⟩

/-- A CAPITAL_RETURN as the very first transaction on its symbol. -/
def crUnseen : Transaction :=
  ⟨0, 0, "Y", TransType.CAPITAL_RETURN, 0, ⟨"CAD", 5⟩, ⟨"CAD", 0⟩⟩

/-- Provider data with two consecutive bank holidays (days 11 and 12) before
business day 10, whose closing rate is 3. -/
def holidayFetch : Nat → Option (ℚ × ℚ × ℚ × ℚ) := fun d =>
  if d = 12 then some (-1, -2, -3, -4)
  else if d = 11 then some (-1, -2, -3, -4)
  else if d = 10 then some (2, 3, 4, 5)
  else none

/-- Provider data with a single bank holiday on day 11 after business day 10
with closing rate 3. -/
def holidayFetch1 : Nat → Option (ℚ × ℚ × ℚ × ℚ) := fun d =>
  if d = 11 then some (-1, -2, -3, -4)
  else if d = 10 then some (2, 3, 4, 5)
  else none

/-! ### Ledger arithmetic lemmas -/

/-- Small helper: `Option.elim` applied to `some`. -/
theorem optElim_some {α β : Type} (x : α) (b : β) (f : α → β) :
    (Option.some x).elim b f = f x := rfl

theorem sumUnits_nil : sumUnits [] = 0 := rfl

theorem sumUnits_cons (lot : Lot) (l : List Lot) :
    sumUnits (lot :: l) = lot.units + sumUnits l := by
  simp [sumUnits]

theorem sumUnits_reverse (l : List Lot) : sumUnits l.reverse = sumUnits l := by
  simp [sumUnits, List.sum_reverse]

theorem sumUnits_nonneg (l : List Lot) (h : ∀ lot ∈ l, 0 ≤ lot.units) :
    0 ≤ sumUnits l := by
  unfold sumUnits
  apply List.sum_nonneg
  intro x hx
  obtain ⟨lot, hlot, rfl⟩ := List.mem_map.mp hx
  exact h lot hlot

theorem sumUnits_pushRev (l : List Lot) (u v : ℚ) (d : Int) :
    sumUnits (pushRev l u v d) = sumUnits l + u := by
  cases l with
  | nil => simp [pushRev, sumUnits]
  | cons lot rest =>
    by_cases h : lot.date ≠ d <;>
      simp [pushRev, h, sumUnits_cons] <;> ring

theorem sumUnits_PushShares (l : List Lot) (u v : ℚ) (d : Int) :
    sumUnits (PushShares l u v d) = sumUnits l + u := by
  unfold PushShares
  rw [sumUnits_reverse, sumUnits_pushRev, sumUnits_reverse]

theorem pushRev_nonneg (l : List Lot) (u v : ℚ) (d : Int)
    (hl : ∀ lot ∈ l, 0 ≤ lot.units) (hu : 0 ≤ u) :
    ∀ lot ∈ pushRev l u v d, 0 ≤ lot.units := by
  intro lot hm
  cases l with
  | nil =>
    simp only [pushRev, List.mem_singleton] at hm
    subst hm
    exact hu
  | cons l0 rest =>
    simp only [pushRev] at hm
    split at hm
    · rcases List.mem_cons.mp hm with h1 | h2
      · subst h1; exact hu
      · exact hl lot h2
    · rcases List.mem_cons.mp hm with h1 | h2
      · subst h1
        exact add_nonneg (hl l0 (List.mem_cons_self _ _)) hu
      · exact hl lot (List.mem_cons_of_mem _ h2)

theorem PushShares_nonneg (l : List Lot) (u v : ℚ) (d : Int)
    (hl : ∀ lot ∈ l, 0 ≤ lot.units) (hu : 0 ≤ u) :
    ∀ lot ∈ PushShares l u v d, 0 ≤ lot.units := by
  intro lot hm
  rw [PushShares, List.mem_reverse] at hm
  exact pushRev_nonneg l.reverse u v d
    (fun x hx => hl x (List.mem_reverse.mp hx)) hu lot hm

theorem popRev_sum (since : Int) (l : List Lot) :
    ∀ (u : ℚ) (r : Int × ℚ × ℚ × List Lot),
      popRev since u l = some r → sumUnits r.2.2.2 = sumUnits l - u := by
  induction l with
  | nil => intro u r h; simp [popRev] at h
  | cons lot rest ih =>
    intro u r h
    rw [popRev] at h
    split at h
    · rw [Option.map_eq_some'] at h
      obtain ⟨r0, hr0, rfl⟩ := h
      have hs := ih (u - lot.units) r0 hr0
      have hproj :
          (if since ≤ lot.date then
              (r0.1, r0.2.1 + lot.units, r0.2.2.1 + lot.value, r0.2.2.2)
            else r0).2.2.2 = r0.2.2.2 := by
        split <;> rfl
      rw [hproj, hs, sumUnits_cons]
      ring
    · split at h
      · simp at h
      · rw [Option.some_inj] at h
        subst h
        simp only [sumUnits_cons]
        split
        · rename_i hz
          have : lot.units = u := by linarith
          rw [this]; ring
        · rw [sumUnits_cons]; ring

theorem popRev_le (since : Int) (l : List Lot) :
    ∀ (u : ℚ) (r : Int × ℚ × ℚ × List Lot),
      (∀ lot ∈ l, 0 ≤ lot.units) → popRev since u l = some r →
      u ≤ sumUnits l := by
  induction l with
  | nil => intro u r _ h; simp [popRev] at h
  | cons lot rest ih =>
    intro u r hl h
    rw [popRev] at h
    split at h
    · rw [Option.map_eq_some'] at h
      obtain ⟨r0, hr0, rfl⟩ := h
      have := ih (u - lot.units) r0 (fun x hx => hl x (by simp [hx])) hr0
      rw [sumUnits_cons]
      linarith
    · rename_i hge
      have h1 : u ≤ lot.units := not_lt.mp hge
      have h2 : 0 ≤ sumUnits rest :=
        sumUnits_nonneg rest (fun x hx => hl x (by simp [hx]))
      rw [sumUnits_cons]
      linarith

theorem popRev_nonneg (since : Int) (l : List Lot) :
    ∀ (u : ℚ) (r : Int × ℚ × ℚ × List Lot),
      (∀ lot ∈ l, 0 ≤ lot.units) → popRev since u l = some r →
      ∀ lot ∈ r.2.2.2, 0 ≤ lot.units := by
  induction l with
  | nil => intro u r _ h; simp [popRev] at h
  | cons lot rest ih =>
    intro u r hl h
    rw [popRev] at h
    split at h
    · rw [Option.map_eq_some'] at h
      obtain ⟨r0, hr0, rfl⟩ := h
      have hrec := ih (u - lot.units) r0 (fun x hx => hl x (by simp [hx])) hr0
      have hproj :
          (if since ≤ lot.date then
              (r0.1, r0.2.1 + lot.units, r0.2.2.1 + lot.value, r0.2.2.2)
            else r0).2.2.2 = r0.2.2.2 := by
        split <;> rfl
      rw [hproj]
      exact hrec
    · rename_i hge
      split at h
      · simp at h
      · rw [Option.some_inj] at h
        subst h
        simp only
        split
        · exact fun x hx => hl x (by simp [hx])
        · intro x hx
          rcases List.mem_cons.mp hx with rfl | hx
          · have : u ≤ lot.units := not_lt.mp hge
            simp only
            linarith
          · exact hl x (by simp [hx])

theorem PopShares_sum (l : List Lot) (u : ℚ) (since bd : Int) (nu nv : ℚ)
    (l2 : List Lot) (h : PopShares l u since = some (bd, nu, nv, l2)) :
    sumUnits l2 = sumUnits l - u := by
  unfold PopShares at h
  rw [Option.map_eq_some'] at h
  obtain ⟨r, hr, heq⟩ := h
  have hs := popRev_sum since l.reverse u r hr
  have hl2 : l2 = r.2.2.2.reverse := by
    have := congrArg (fun p : Int × ℚ × ℚ × List Lot => p.2.2.2) heq
    simpa using this.symm
  subst hl2
  rw [sumUnits_reverse, hs, sumUnits_reverse]

theorem PopShares_le (l : List Lot) (u : ℚ) (since : Int)
    (r : Int × ℚ × ℚ × List Lot) (hl : ∀ lot ∈ l, 0 ≤ lot.units)
    (h : PopShares l u since = some r) : u ≤ sumUnits l := by
  unfold PopShares at h
  rw [Option.map_eq_some'] at h
  obtain ⟨r0, hr0, _⟩ := h
  have := popRev_le since l.reverse u r0
    (fun x hx => hl x (List.mem_reverse.mp hx)) hr0
  rwa [sumUnits_reverse] at this

theorem PopShares_nonneg (l : List Lot) (u : ℚ) (since bd : Int) (nu nv : ℚ)
    (l2 : List Lot) (hl : ∀ lot ∈ l, 0 ≤ lot.units)
    (h : PopShares l u since = some (bd, nu, nv, l2)) :
    ∀ lot ∈ l2, 0 ≤ lot.units := by
  unfold PopShares at h
  rw [Option.map_eq_some'] at h
  obtain ⟨r, hr, heq⟩ := h
  have hrec := popRev_nonneg since l.reverse u r
    (fun x hx => hl x (List.mem_reverse.mp hx)) hr
  have hl2 : l2 = r.2.2.2.reverse := by
    have := congrArg (fun p : Int × ℚ × ℚ × List Lot => p.2.2.2) heq
    simpa using this.symm
  subst hl2
  intro lot hm
  exact hrec lot (List.mem_reverse.mp hm)

/-! ### The lot-conservation invariant -/

theorem initState_lotInvariant : LotInvariant initState := by
  intro sym
  constructor
  · intro lot hm
    simp [ledgerOf, initState] at hm
  · simp [ledgerOf, acbOf, initState, sumUnits]

/-- Equation lemma: the ACQUIRE/BUY branch of the processing loop
(src/acb.py lines 156-166), assuming both currency conversions succeed. -/
theorem ProcessTx_buy_eq (table : RateTable) (yearOf : Int → Int)
    (display : Bool) (s : PState) (tx : Transaction)
    (fees v : CurrencyAmount)
    (htb : tx.type = TransType.ACQUIRE ∨ tx.type = TransType.BUY)
    (hf : Convert table tx.fees "CAD" tx.settlement_date DEFAULT_RATE = some fees)
    (hv : Convert table tx.value "CAD" tx.settlement_date DEFAULT_RATE = some v) :
    ProcessTx table yearOf display s tx =
      some ⟨upd s.acbs tx.symbol
              (some ⟨((s.acbs tx.symbol).getD ⟨0, 0⟩).units + tx.units,
                    ((s.acbs tx.symbol).getD ⟨0, 0⟩).cost +
                      tx.units * v.amount + fees.amount⟩),
            upd s.cgs (yearOf tx.settlement_date)
              (some ((s.cgs (yearOf tx.settlement_date)).getD 0)),
            upd (upd s.shares tx.symbol (some ((s.shares tx.symbol).getD [])))
              tx.symbol
              (some (PushShares ((s.shares tx.symbol).getD []) tx.units
                      (tx.units * v.amount) tx.settlement_date)),
            s.events⟩ := by
  rcases htb with htb | htb <;> simp only [ProcessTx, hf, htb, hv]

/-- Equation lemma: the SELL branch of the processing loop (src/acb.py lines
167-209), assuming the conversions and the ledger pop succeed and the
current ACB has nonzero units. -/
theorem ProcessTx_sell_eq (table : RateTable) (yearOf : Int → Int)
    (display : Bool) (s : PState) (tx : Transaction)
    (fees v : CurrencyAmount) (bd : Int) (wu wv : ℚ) (l2 : List Lot)
    (htsell : tx.type = TransType.SELL)
    (hf : Convert table tx.fees "CAD" tx.settlement_date DEFAULT_RATE = some fees)
    (hpop : PopShares ((s.shares tx.symbol).getD []) tx.units
      (tx.settlement_date - 30) = some (bd, wu, wv, l2))
    (hv : Convert table tx.value "CAD" tx.settlement_date DEFAULT_RATE = some v)
    (h0 : ¬ ((s.acbs tx.symbol).getD ⟨0, 0⟩).units = 0) :
    ProcessTx table yearOf display s tx =
      some ⟨upd s.acbs tx.symbol
              (some ⟨max 0 (((s.acbs tx.symbol).getD ⟨0, 0⟩).units - tx.units),
                    max 0 (((s.acbs tx.symbol).getD ⟨0, 0⟩).cost *
                       (max 0 (((s.acbs tx.symbol).getD ⟨0, 0⟩).units - tx.units)) /
                       ((s.acbs tx.symbol).getD ⟨0, 0⟩).units)⟩),
            upd (upd s.cgs (yearOf tx.settlement_date)
                  (some ((s.cgs (yearOf tx.settlement_date)).getD 0)))
              (yearOf tx.settlement_date)
              (some ((upd s.cgs (yearOf tx.settlement_date)
                        (some ((s.cgs (yearOf tx.settlement_date)).getD 0))
                        (yearOf tx.settlement_date)).getD 0 +
                ((v.amount - ((s.acbs tx.symbol).getD ⟨0, 0⟩).cost /
                    ((s.acbs tx.symbol).getD ⟨0, 0⟩).units) * tx.units -
                  fees.amount))),
            upd (upd s.shares tx.symbol (some ((s.shares tx.symbol).getD [])))
              tx.symbol (some l2),
            if ((v.amount - ((s.acbs tx.symbol).getD ⟨0, 0⟩).cost /
                  ((s.acbs tx.symbol).getD ⟨0, 0⟩).units) * tx.units -
                fees.amount ≠ 0) ∧ display = true then
              fun d2 s2 =>
                if d2 = tx.settlement_date ∧ s2 = tx.symbol then
                  some (foldEvent (s.events tx.settlement_date tx.symbol) bd
                          tx.units v.amount
                          (((s.acbs tx.symbol).getD ⟨0, 0⟩).cost /
                            ((s.acbs tx.symbol).getD ⟨0, 0⟩).units)
                          fees.amount)
                else s.events d2 s2
            else s.events⟩ := by
  simp only [ProcessTx, hf, htsell, hpop, hv, if_neg h0]

/-- Updating one symbol's ACB and ledger in lockstep preserves the
lot-conservation invariant. -/
theorem lotInvariant_update (s : PState) (T : String) (A : AdjustedCostBase)
    (C : Int → Option ℚ) (L : List Lot) (E : Int → String → Option Event)
    (hs : LotInvariant s) (hnn : ∀ lot ∈ L, 0 ≤ lot.units)
    (hsum : sumUnits L = A.units) :
    LotInvariant ⟨upd s.acbs T (some A), C,
      upd (upd s.shares T (some ((s.shares T).getD []))) T (some L), E⟩ := by
  intro sym
  by_cases hsym : sym = T
  · subst hsym
    constructor
    · intro lot hm
      simp [ledgerOf, upd] at hm
      exact hnn lot hm
    · simp [ledgerOf, acbOf, upd]
      exact hsum
  · constructor
    · intro lot hm
      refine (hs sym).1 lot ?_
      simp only [ledgerOf] at hm ⊢
      simp [upd, hsym] at hm
      simpa using hm
    · have h2 := (hs sym).2
      simp only [ledgerOf, acbOf] at h2 ⊢
      simpa [upd, hsym] using h2

theorem ProcessTx_lotInvariant (table : RateTable) (yearOf : Int → Int)
    (display : Bool) (s : PState) (tx : Transaction) (s' : PState)
    (hs : LotInvariant s) (hu : 0 ≤ tx.units)
    (ht : tx.type = TransType.ACQUIRE ∨ tx.type = TransType.BUY ∨
      tx.type = TransType.SELL)
    (h : ProcessTx table yearOf display s tx = some s') :
    LotInvariant s' := by
  cases hf : Convert table tx.fees "CAD" tx.settlement_date DEFAULT_RATE with
  | none =>
    simp only [ProcessTx, hf] at h
    exact Option.noConfusion h
  | some fees =>
    have hbuy : ∀ v : CurrencyAmount,
        Convert table tx.value "CAD" tx.settlement_date DEFAULT_RATE = some v →
        (tx.type = TransType.ACQUIRE ∨ tx.type = TransType.BUY) →
        LotInvariant s' := by
      intro v hv htb
      rw [ProcessTx_buy_eq table yearOf display s tx fees v htb hf hv,
        Option.some_inj] at h
      subst h
      refine lotInvariant_update s tx.symbol _ _ _ _ hs ?_ ?_
      · exact PushShares_nonneg _ _ _ _ (fun x hx => (hs tx.symbol).1 x hx) hu
      · rw [sumUnits_PushShares]
        have h2 := (hs tx.symbol).2
        simp only [ledgerOf, acbOf] at h2
        rw [h2]
    rcases ht with htb | htb | htsell
    · cases hv : Convert table tx.value "CAD" tx.settlement_date DEFAULT_RATE with
      | none =>
        simp only [ProcessTx, hf, htb, hv] at h
        exact Option.noConfusion h
      | some v => exact hbuy v hv (Or.inl htb)
    · cases hv : Convert table tx.value "CAD" tx.settlement_date DEFAULT_RATE with
      | none =>
        simp only [ProcessTx, hf, htb, hv] at h
        exact Option.noConfusion h
      | some v => exact hbuy v hv (Or.inr htb)
    · cases hpop : PopShares ((s.shares tx.symbol).getD []) tx.units
        (tx.settlement_date - 30) with
      | none =>
        simp only [ProcessTx, hf, htsell, hpop] at h
        exact Option.noConfusion h
      | some r =>
        obtain ⟨bd, wu, wv, l2⟩ := r
        cases hv : Convert table tx.value "CAD" tx.settlement_date DEFAULT_RATE with
        | none =>
          simp only [ProcessTx, hf, htsell, hpop, hv] at h
          exact Option.noConfusion h
        | some v =>
          by_cases h0 : ((s.acbs tx.symbol).getD ⟨0, 0⟩).units = 0
          · simp only [ProcessTx, hf, htsell, hpop, hv, if_pos h0] at h
            exact Option.noConfusion h
          · rw [ProcessTx_sell_eq table yearOf display s tx fees v bd wu wv l2
              htsell hf hpop hv h0, Option.some_inj] at h
            subst h
            have hnn : ∀ lot ∈ (s.shares tx.symbol).getD [], 0 ≤ lot.units :=
              fun x hx => (hs tx.symbol).1 x hx
            have hle : tx.units ≤ sumUnits ((s.shares tx.symbol).getD []) :=
              PopShares_le _ _ _ _ hnn hpop
            have hsum := PopShares_sum _ _ _ _ _ _ _ hpop
            have h2 := (hs tx.symbol).2
            simp only [ledgerOf, acbOf] at h2
            refine lotInvariant_update s tx.symbol _ _ _ _ hs ?_ ?_
            · exact PopShares_nonneg _ _ _ _ _ _ _ hnn hpop
            · have hmax : max (0 : ℚ)
                  (((s.acbs tx.symbol).getD ⟨0, 0⟩).units - tx.units) =
                  ((s.acbs tx.symbol).getD ⟨0, 0⟩).units - tx.units :=
                max_eq_right (by linarith)
              simp only
              rw [hsum, h2, hmax]

theorem foldlM_lotInvariant (table : RateTable) (yearOf : Int → Int)
    (display : Bool) (txs : List Transaction) :
    ∀ (s : PState), LotInvariant s →
      (∀ tx ∈ txs, 0 ≤ tx.units ∧ (tx.type = TransType.ACQUIRE ∨
        tx.type = TransType.BUY ∨ tx.type = TransType.SELL)) →
      ∀ s', txs.foldlM (ProcessTx table yearOf display) s = some s' →
      LotInvariant s' := by
  induction txs with
  | nil =>
    intro s hs _ s' h
    simp only [List.foldlM_nil, pure] at h
    cases h
    exact hs
  | cons tx txs ih =>
    intro s hs hall s' h
    rw [List.foldlM_cons] at h
    cases hstep : ProcessTx table yearOf display s tx with
    | none =>
      rw [hstep] at h
      simp at h
    | some s1 =>
      rw [hstep] at h
      simp only [Option.bind_eq_bind, Option.some_bind] at h
      exact ih s1
        (ProcessTx_lotInvariant table yearOf display s tx s1 hs
          (hall tx (by simp)).1 (hall tx (by simp)).2 hstep)
        (fun t htm => hall t (by simp [htm])) s' h

/-! ### Claim theorems -/

/-- C7: asking `PopShares` for more units than the ledger's total fails (the
Python loop deletes every batch and then indexes the empty list, raising),
for every well-formed ledger (all lot unit counts nonnegative). -/
theorem pop_underflow_fails (shares : List Lot) (units : ℚ) (count_since : Int)
    (hl : ∀ lot ∈ shares, 0 ≤ lot.units) (hlt : sumUnits shares < units) :
    PopShares shares units count_since = none := by
  cases hp : PopShares shares units count_since with
  | none => rfl
  | some r =>
    have := PopShares_le shares units count_since r hl hp
    linarith

/-- Witness for `pop_underflow_fails`: popping 7 units from a 5-unit ledger. -/
theorem pop_underflow_fails_witness :
    (∀ lot ∈ ([⟨0, 5, 50⟩] : List Lot), 0 ≤ lot.units) ∧
    sumUnits [⟨0, 5, 50⟩] < 7 ∧
    PopShares [⟨0, 5, 50⟩] 7 0 = none :=
  ⟨by norm_num, by norm_num [sumUnits],
   pop_underflow_fails [⟨0, 5, 50⟩] 7 0 (by norm_num) (by norm_num [sumUnits])⟩

/-- C9: `Convert` is the identity when the target currency already matches,
for every provider table (hence no rate lookup can be involved), and
short-circuits a zero amount to the zero amount of the target currency,
again independently of the provider. -/
theorem convert_noop (table : RateTable) (a : CurrencyAmount)
    (currency_to : String) (date : Int) (when : String) :
    (a.currency = currency_to → Convert table a currency_to date when = some a) ∧
    (a.currency ≠ currency_to → a.amount = 0 →
      Convert table a currency_to date when = some ⟨currency_to, 0⟩) := by
  constructor
  · intro h
    simp [Convert, h]
  · intro h hz
    simp [Convert, h, hz]

/-- Witness for `convert_noop`: a same-currency amount and a zero USD fee. -/
theorem convert_noop_witness :
    ((⟨"CAD", 3⟩ : CurrencyAmount).currency = "CAD" ∧
      Convert trivTable ⟨"CAD", 3⟩ "CAD" 0 DEFAULT_RATE = some ⟨"CAD", 3⟩) ∧
    ((⟨"USD", 0⟩ : CurrencyAmount).currency ≠ "CAD" ∧
      Convert trivTable ⟨"USD", 0⟩ "CAD" 0 DEFAULT_RATE = some ⟨"CAD", 0⟩) :=
  ⟨⟨rfl, (convert_noop trivTable ⟨"CAD", 3⟩ "CAD" 0 DEFAULT_RATE).1 rfl⟩,
   ⟨by decide, (convert_noop trivTable ⟨"USD", 0⟩ "CAD" 0 DEFAULT_RATE).2
      (by decide) rfl⟩⟩

/-- C3 is wrong about the code: the same-date merge of `PushShares`
(src/acb.py line 72) adds `units * value` — not `value` — to the lot's cost
field, although the append path stores `value` directly and `PopShares`
reads the field as the lot's total cost.  Pushing 2 units of total cost 10
onto the same-date lot `[5, 10, 100]` yields cost 120 where the claim
requires 110. -/
theorem push_merge_cost_bug :
    PushShares [⟨5, 10, 100⟩] 2 10 5 = [⟨5, 12, 120⟩] ∧
    ([⟨5, 12, 120⟩] : List Lot) ≠ [⟨5, 12, 110⟩] := by
  constructor
  · norm_num [PushShares, pushRev]
  · norm_num [Lot.mk.injEq]

/-- C4 is wrong about the code for FEE: the dispatch of
`ProcessTransactions` (src/acb.py lines 156-223) has no branch for
`TRANS_FEE`, so a FEE transaction falls into the unknown-transaction raise —
even though the CIBC importer emits FEE transactions — while a DIVIDEND
transaction does complete and leaves the ACB map, the ledger contents and
the gain totals unchanged. -/
theorem fee_transaction_bug :
    ProcessTransactions trivTable (fun _ => 0) true [feeTx] = none ∧
    (ProcessTransactions trivTable (fun _ => 0) true [divTx]).map
        (fun s => (s.acbs "VXC", (s.shares "VXC").getD [], (s.cgs 0).getD 0)) =
      some (none, [], 0) := by
  constructor <;>
    norm_num [ProcessTransactions, ProcessTx, Convert, List.foldlM, trivTable,
      feeTx, divTx, initState, upd, DEFAULT_RATE]

/-- C8 counterexample: days 11 and 12 are consecutive bank holidays and day
10 is a business day with closing rate 3.  The day-12 lookup does return the
closing rate 3 for every rate kind, but reports day 11 — itself a bank
holiday — as the effective date, not the resolved prior business day 10 the
claim requires. -/
theorem holiday_date_counterexample :
    GetUsdToCadDailyRateTable holidayFetch 12 = some (11, 3, 3, 3, 3) ∧
    GetUsdToCadDailyRateTable holidayFetch 12 ≠ some (10, 3, 3, 3, 3) := by
  constructor
  · norm_num [GetUsdToCadDailyRateTable, holidayFetch]
  · norm_num [GetUsdToCadDailyRateTable, holidayFetch]

/-- C8 (amended): when the provider flags day `d+1` as a bank holiday
(negative noon sentinel), the lookup returns the recursive result's closing
rate for day `d` as the value of every rate kind and reports the immediately
prior calendar day `d` as the effective date; when that prior day is a
business day (nonnegative noon), this is exactly the previous business day's
closing rate dated with the previous business day. -/
theorem holiday_fallback (fetch : Nat → Option (ℚ × ℚ × ℚ × ℚ)) (d : Nat)
    (noon close high low : ℚ)
    (hf : fetch (d + 1) = some (noon, close, high, low)) (hn : noon < 0) :
    (GetUsdToCadDailyRateTable fetch (d + 1) =
      (GetUsdToCadDailyRateTable fetch d).map
        (fun r => (d, r.2.2.1, r.2.2.1, r.2.2.1, r.2.2.1))) ∧
    (∀ noon0 close0 high0 low0 : ℚ,
      fetch d = some (noon0, close0, high0, low0) → 0 ≤ noon0 →
      GetUsdToCadDailyRateTable fetch (d + 1) =
        some (d, close0, close0, close0, close0)) := by
  have h1 : GetUsdToCadDailyRateTable fetch (d + 1) =
      (GetUsdToCadDailyRateTable fetch d).map
        (fun r => (d, r.2.2.1, r.2.2.1, r.2.2.1, r.2.2.1)) := by
    simp only [GetUsdToCadDailyRateTable, hf, if_pos hn]
  refine ⟨h1, ?_⟩
  intro noon0 close0 high0 low0 hf0 hn0
  rw [h1]
  cases d with
  | zero =>
    simp only [GetUsdToCadDailyRateTable, hf0, if_neg (not_lt.mpr hn0),
      Option.map_some']
  | succ d' =>
    simp only [GetUsdToCadDailyRateTable, hf0, if_neg (not_lt.mpr hn0),
      Option.map_some']

/-- Witness for `holiday_fallback`: the single-holiday provider. -/
theorem holiday_fallback_witness :
    holidayFetch1 11 = some (-1, -2, -3, -4) ∧ (-1 : ℚ) < 0 ∧
    GetUsdToCadDailyRateTable holidayFetch1 11 = some (10, 3, 3, 3, 3) :=
  ⟨by norm_num [holidayFetch1], by norm_num,
   (holiday_fallback holidayFetch1 10 (-1) (-2) (-3) (-4)
       (by norm_num [holidayFetch1]) (by norm_num)).2 2 3 4 5
     (by norm_num [holidayFetch1]) (by norm_num)⟩

/-- C10 counterexample: the claim says a SELL on a previously unseen symbol
proceeds with the lazily created zero entry, but a SELL as the very first
transaction of its symbol fails even under a provider that resolves every
rate: `PopShares` on the lazily created empty ledger raises. -/
theorem sell_unseen_counterexample :
    ProcessTransactions unitTable (fun _ => 2014) true [sellUnseen] = none := by
  norm_num [ProcessTransactions, ProcessTx, Convert, PopShares, popRev,
    List.foldlM, sellUnseen, initState, upd, DEFAULT_RATE, unitTable]

/-- C10 (amended): with no ACB entry for the symbol, CAPITAL_RETURN fails
(src/acb.py line 215 indexes the dict directly, bypassing the lazy default);
SELL on a symbol with no ledger also fails (empty-ledger pop); while ACQUIRE
and BUY proceed from the lazily created zero entry. -/
theorem unseen_symbol_behavior (table : RateTable) (yearOf : Int → Int)
    (display : Bool) (s : PState) (tx : Transaction)
    (hnone : s.acbs tx.symbol = none) :
    (tx.type = TransType.CAPITAL_RETURN →
      ProcessTx table yearOf display s tx = none) ∧
    (tx.type = TransType.SELL → s.shares tx.symbol = none →
      ProcessTx table yearOf display s tx = none) ∧
    (∀ fees v : CurrencyAmount,
      (tx.type = TransType.ACQUIRE ∨ tx.type = TransType.BUY) →
      Convert table tx.fees "CAD" tx.settlement_date DEFAULT_RATE = some fees →
      Convert table tx.value "CAD" tx.settlement_date DEFAULT_RATE = some v →
      (ProcessTx table yearOf display s tx).map (fun s2 => s2.acbs tx.symbol) =
        some (some ⟨tx.units, tx.units * v.amount + fees.amount⟩)) := by
  refine ⟨?_, ?_, ?_⟩
  · intro ht
    cases hf : Convert table tx.fees "CAD" tx.settlement_date DEFAULT_RATE with
    | none => simp only [ProcessTx, hf]
    | some fees =>
      cases hv : Convert table tx.value "CAD" tx.settlement_date DEFAULT_RATE with
      | none => simp only [ProcessTx, hf, ht, hv]
      | some v => simp only [ProcessTx, hf, ht, hv, hnone]
  · intro ht hsh
    cases hf : Convert table tx.fees "CAD" tx.settlement_date DEFAULT_RATE with
    | none => simp only [ProcessTx, hf]
    | some fees =>
      simp only [ProcessTx, hf, ht, hsh, Option.getD_none, PopShares,
        List.reverse_nil, popRev, Option.map_none']
  · intro fees v htb hf hv
    rw [ProcessTx_buy_eq table yearOf display s tx fees v htb hf hv]
    simp [upd, hnone]

/-- Witness for `unseen_symbol_behavior`: a CAPITAL_RETURN on the empty
starting state fails. -/
theorem unseen_symbol_behavior_witness :
    initState.acbs crUnseen.symbol = none ∧
    ProcessTx unitTable (fun _ => 2014) true initState crUnseen = none :=
  ⟨rfl, (unseen_symbol_behavior unitTable (fun _ => 2014) true initState
      crUnseen rfl).1 rfl⟩

/-- C1 counterexample: ledger [(1,100,1000),(2,50,600)] (oldest first) and a
sale of 50 units — fewer than the oldest lot's 100 units.  The claim predicts
all younger lots untouched, but `PopShares` consumes the newest lot
`(2,50,600)` entirely: it is absent from the resulting ledger. -/
theorem pop_oldest_first_counterexample :
    PopShares [⟨1, 100, 1000⟩, ⟨2, 50, 600⟩] 50 (-100) =
      some (2, 50, 600, [⟨1, 100, 1000⟩]) ∧
    (⟨2, 50, 600⟩ : Lot) ∉ ([⟨1, 100, 1000⟩] : List Lot) := by
  constructor
  · norm_num [PopShares, popRev]
  · norm_num [Lot.mk.injEq]

/-- C1 (amended): `PopShares` consumes lots strictly newest-first (LIFO, a
stack).  A positive request of at most the newest (last) lot's units touches
only that lot, splitting it proportionally (removing it when consumed
exactly) and leaving every older lot untouched; a request exceeding the
newest lot's units consumes it entirely, removes it, and continues on the
older lots with the remaining units, accumulating the consumed lot into the
washed totals when its date is within the window. -/
theorem pop_newest_first (L : List Lot) (lot : Lot) (u : ℚ) (since : Int) :
    (0 < u → u ≤ lot.units →
      PopShares (L ++ [lot]) u since =
        some (lot.date,
              (if since ≤ lot.date then u else 0),
              (if since ≤ lot.date then
                 lot.value - lot.value * (lot.units - u) / lot.units
               else 0),
              (if lot.units - u = 0 then L
               else L ++ [⟨lot.date, lot.units - u,
                           lot.value * (lot.units - u) / lot.units⟩]))) ∧
    (lot.units < u →
      PopShares (L ++ [lot]) u since =
        (PopShares L (u - lot.units) since).map
          (fun r =>
            if since ≤ lot.date then
              (r.1, r.2.1 + lot.units, r.2.2.1 + lot.value, r.2.2.2)
            else r)) := by
  have hrev : (L ++ [lot]).reverse = lot :: L.reverse := by simp
  constructor
  · intro hu hle
    have hnz : ¬ lot.units = 0 := (lt_of_lt_of_le hu hle).ne'
    unfold PopShares
    rw [hrev]
    simp only [popRev, if_neg (not_lt.mpr hle), if_neg hnz, Option.map_some']
    by_cases hz : lot.units - u = 0
    · simp [hz]
    · simp [hz, List.reverse_cons]
  · intro hlt
    unfold PopShares
    rw [hrev]
    simp only [popRev, if_pos hlt]
    cases hrec : popRev since (u - lot.units) L.reverse with
    | none => simp [hrec]
    | some r =>
      obtain ⟨bd, nu, nv, rest2⟩ := r
      simp only [hrec, Option.map_some']
      by_cases hd : since ≤ lot.date
      · simp [hd]
      · simp [hd]

/-- Witness for `pop_newest_first`: selling 20 of the newest lot's 50 units
splits only that lot and leaves the older lot untouched. -/
theorem pop_newest_first_witness :
    (0 : ℚ) < 20 ∧ (20 : ℚ) ≤ (⟨2, 50, 600⟩ : Lot).units ∧
    PopShares ([⟨1, 100, 1000⟩] ++ [⟨2, 50, 600⟩]) 20 0 =
      some ((⟨2, 50, 600⟩ : Lot).date,
            (if (0 : Int) ≤ (⟨2, 50, 600⟩ : Lot).date then (20 : ℚ) else 0),
            (if (0 : Int) ≤ (⟨2, 50, 600⟩ : Lot).date then
               (⟨2, 50, 600⟩ : Lot).value -
                 (⟨2, 50, 600⟩ : Lot).value * ((⟨2, 50, 600⟩ : Lot).units - 20) /
                   (⟨2, 50, 600⟩ : Lot).units
             else 0),
            (if (⟨2, 50, 600⟩ : Lot).units - 20 = 0 then [⟨1, 100, 1000⟩]
             else [⟨1, 100, 1000⟩] ++
               [⟨(⟨2, 50, 600⟩ : Lot).date, (⟨2, 50, 600⟩ : Lot).units - 20,
                 (⟨2, 50, 600⟩ : Lot).value * ((⟨2, 50, 600⟩ : Lot).units - 20) /
                   (⟨2, 50, 600⟩ : Lot).units⟩])) :=
  ⟨by norm_num, by norm_num,
   (pop_newest_first [⟨1, 100, 1000⟩] ⟨2, 50, 600⟩ 20 0).1 (by norm_num)
     (by norm_num)⟩

/-- C2: on a SELL of a symbol whose current ACB has positive units, the new
ACB entry is exactly (max 0 (units - sold), max 0 (cost * newUnits / units))
— the proportional cost reduction with the zero floors — and the CAD
scenario of the spec (buy 100@10, buy 50@12, sell 120@15) yields remaining
units 30, total cost 320 and a 520 gain booked to the settlement year. -/
theorem sell_acb_update :
    (∀ (table : RateTable) (yearOf : Int → Int) (display : Bool) (s : PState)
        (tx : Transaction) (fees v : CurrencyAmount) (bd : Int) (wu wv : ℚ)
        (l2 : List Lot),
      tx.type = TransType.SELL →
      Convert table tx.fees "CAD" tx.settlement_date DEFAULT_RATE = some fees →
      PopShares (ledgerOf s tx.symbol) tx.units (tx.settlement_date - 30) =
        some (bd, wu, wv, l2) →
      Convert table tx.value "CAD" tx.settlement_date DEFAULT_RATE = some v →
      0 < (acbOf s tx.symbol).units →
      (ProcessTx table yearOf display s tx).elim False
        (fun s2 => s2.acbs tx.symbol =
          some ⟨max 0 ((acbOf s tx.symbol).units - tx.units),
                max 0 ((acbOf s tx.symbol).cost *
                  (max 0 ((acbOf s tx.symbol).units - tx.units)) /
                  (acbOf s tx.symbol).units)⟩)) ∧
    (ProcessTransactions trivTable (fun _ => 2014) true scenarioTxs).map
        (fun s => (s.acbs "X", s.cgs 2014)) =
      some (some ⟨30, 320⟩, some 520) := by
  constructor
  · intro table yearOf display s tx fees v bd wu wv l2 ht hf hp hv h0
    rw [ProcessTx_sell_eq table yearOf display s tx fees v bd wu wv l2 ht hf hp
      hv h0.ne', optElim_some]
    simp [upd, acbOf]
  · norm_num [ProcessTransactions, ProcessTx, Convert, PushShares, pushRev,
      PopShares, popRev, upd, initState, DEFAULT_RATE, foldEvent, List.foldlM,
      trivTable, scenarioTxs]

/-- Witness for `sell_acb_update`: selling 4 of 10 held units. -/
theorem sell_acb_update_witness :
    0 < (acbOf wState wSell.symbol).units ∧
    (ProcessTx trivTable wYear true wState wSell).elim False
      (fun s2 => s2.acbs wSell.symbol =
        some ⟨max 0 ((acbOf wState wSell.symbol).units - wSell.units),
              max 0 ((acbOf wState wSell.symbol).cost *
                (max 0 ((acbOf wState wSell.symbol).units - wSell.units)) /
                (acbOf wState wSell.symbol).units)⟩) :=
  ⟨by norm_num [acbOf, wState, upd, wSell],
   sell_acb_update.1 trivTable wYear true wState wSell wSellFees wSellValue
     0 4 40 [⟨0, 6, 60⟩] rfl (by norm_num [Convert, wSell, wSellFees])
     (by norm_num [PopShares, popRev, ledgerOf, wState, wSell, upd])
     (by norm_num [Convert, wSell, wSellValue])
     (by norm_num [acbOf, wState, upd, wSell])⟩

/-- C6 counterexample: with the display flag off (its default value), a
round trip with a 100 CAD gain updates the year's total but records no
event, refuting the claimed "recorded iff gain nonzero". -/
theorem event_display_counterexample :
    (ProcessTransactions trivTable (fun _ => 2014) false [cbuy, csell]).map
        (fun s => (s.cgs 2014, s.events 2 "X")) = some (some 100, none) ∧
    (100 : ℚ) ≠ 0 := by
  constructor
  · norm_num [ProcessTransactions, ProcessTx, Convert, PushShares, pushRev,
      PopShares, popRev, upd, initState, DEFAULT_RATE, List.foldlM, trivTable,
      cbuy, csell]
  · norm_num

/-- C6 (amended): every successful SELL adds the gain
(valueInCAD - cost_per_unit) * units - feesInCAD to the settlement year's
total, and the day-and-symbol event table changes if and only if that gain
is nonzero AND the display flag is set (the flag, true at the script's only
call site, also gates event recording in src/acb.py line 188). -/
theorem sell_gain_event_recording (table : RateTable) (yearOf : Int → Int)
    (display : Bool) (s : PState) (tx : Transaction) (fees v : CurrencyAmount)
    (bd : Int) (wu wv : ℚ) (l2 : List Lot)
    (ht : tx.type = TransType.SELL)
    (hf : Convert table tx.fees "CAD" tx.settlement_date DEFAULT_RATE = some fees)
    (hp : PopShares (ledgerOf s tx.symbol) tx.units (tx.settlement_date - 30) =
      some (bd, wu, wv, l2))
    (hv : Convert table tx.value "CAD" tx.settlement_date DEFAULT_RATE = some v)
    (h0 : (acbOf s tx.symbol).units ≠ 0) :
    (ProcessTx table yearOf display s tx).elim False
      (fun s2 =>
        s2.cgs (yearOf tx.settlement_date) =
          some ((s.cgs (yearOf tx.settlement_date)).getD 0 +
            ((v.amount - (acbOf s tx.symbol).cost / (acbOf s tx.symbol).units) *
                tx.units - fees.amount)) ∧
        (s2.events tx.settlement_date tx.symbol ≠
            s.events tx.settlement_date tx.symbol ↔
          (((v.amount - (acbOf s tx.symbol).cost / (acbOf s tx.symbol).units) *
              tx.units - fees.amount) ≠ 0 ∧ display = true))) := by
  rw [ProcessTx_sell_eq table yearOf display s tx fees v bd wu wv l2 ht hf hp
    hv h0, optElim_some]
  refine ⟨?_, ?_⟩
  · simp [upd, acbOf]
  · dsimp only
    simp only [acbOf]
    by_cases hcg : (((v.amount -
        ((s.acbs tx.symbol).getD ⟨0, 0⟩).cost /
          ((s.acbs tx.symbol).getD ⟨0, 0⟩).units) *
        tx.units - fees.amount) ≠ 0 ∧ display = true)
    · rw [if_pos hcg]
      rw [if_pos ⟨rfl, rfl⟩]
      refine iff_of_true ?_ hcg
      cases hold : s.events tx.settlement_date tx.symbol with
      | none => exact fun hcon => Option.noConfusion hcon
      | some e =>
        intro hcon
        have h1 := Option.some_inj.mp hcon
        have h2 := congrArg Event.lots h1
        simp [foldEvent] at h2
    · rw [if_neg hcg]
      exact iff_of_false (fun hcon => hcon rfl) hcg

/-- Witness for `sell_gain_event_recording`: the 4-unit sale against
`wState` books a 40 CAD gain and records an event. -/
theorem sell_gain_event_recording_witness :
    (acbOf wState wSell.symbol).units ≠ 0 ∧
    (ProcessTx trivTable wYear true wState wSell).elim False
      (fun s2 =>
        s2.cgs (wYear wSell.settlement_date) =
          some ((wState.cgs (wYear wSell.settlement_date)).getD 0 +
            ((wSellValue.amount -
                (acbOf wState wSell.symbol).cost /
                  (acbOf wState wSell.symbol).units) * wSell.units -
              wSellFees.amount)) ∧
        (s2.events wSell.settlement_date wSell.symbol ≠
            wState.events wSell.settlement_date wSell.symbol ↔
          (((wSellValue.amount -
              (acbOf wState wSell.symbol).cost /
                (acbOf wState wSell.symbol).units) * wSell.units -
            wSellFees.amount) ≠ 0 ∧ true = true))) :=
  ⟨by norm_num [acbOf, wState, upd, wSell],
   sell_gain_event_recording trivTable wYear true wState wSell wSellFees
     wSellValue 0 4 40 [⟨0, 6, 60⟩] rfl
     (by norm_num [Convert, wSell, wSellFees])
     (by norm_num [PopShares, popRev, ledgerOf, wState, wSell, upd])
     (by norm_num [Convert, wSell, wSellValue])
     (by norm_num [acbOf, wState, upd, wSell])⟩

/-- C5: for any sequence of ACQUIRE/BUY/SELL transactions with nonnegative
unit counts, after processing any prefix that completes, every symbol's
ledger lot-unit sum equals that symbol's AdjustedCostBase units (a SELL that
exceeds the held units would make processing fail instead). -/
theorem lot_conservation (table : RateTable) (yearOf : Int → Int)
    (display : Bool) (txs : List Transaction)
    (hu : ∀ tx ∈ txs, 0 ≤ tx.units)
    (ht : ∀ tx ∈ txs, tx.type = TransType.ACQUIRE ∨ tx.type = TransType.BUY ∨
      tx.type = TransType.SELL)
    (n : Nat) (sym : String) :
    (ProcessTransactions table yearOf display (txs.take n)).elim True
      (fun s => sumUnits (ledgerOf s sym) = (acbOf s sym).units) := by
  cases hp : ProcessTransactions table yearOf display (txs.take n) with
  | none => trivial
  | some s =>
    have hinv := foldlM_lotInvariant table yearOf display (txs.take n) initState
      initState_lotInvariant
      (fun tx htm => ⟨hu tx (List.take_subset n txs htm),
        ht tx (List.take_subset n txs htm)⟩) s hp
    exact (hinv sym).2

/-- Witness for `lot_conservation`: a buy of 10 then a sale of 4. -/
theorem lot_conservation_witness :
    (∀ tx ∈ wTxs, 0 ≤ tx.units) ∧
    (ProcessTransactions trivTable wYear true (wTxs.take 2)).elim True
      (fun s => sumUnits (ledgerOf s "X") = (acbOf s "X").units) :=
  ⟨by norm_num [wTxs], lot_conservation trivTable wYear true wTxs
    (by norm_num [wTxs]) (by norm_num [wTxs]) 2 "X"⟩

end AcbSpec
